/-
Verification of the mail-auth DKIM module (src/src/dkim/mod.rs) against its
natural-language specification.  Machine integers (u64, u8) are modelled as
Nat; byte strings as List Nat; the Rust borrow `Option<&'x Signature>` as
`Option Signature`.  Code of the crate that lives outside src/ (the
canonicalization, builder, sign and verify submodules and the crate-level
Error type) is modelled from the spec; each such definition is marked
`Modelled from the spec:` in its doc comment.
-/
import Mathlib

namespace MailAuth

/-- Signature algorithms (enum `Algorithm` of common::crypto; its variants are
used in src/src/dkim/mod.rs lines 137-144). -/
inductive Algorithm
  | RsaSha256
  | RsaSha1
  | Ed25519Sha256
  deriving DecidableEq

/-- Hash algorithms (enum `HashAlgorithm` of common::crypto). -/
inductive HashAlgorithm
  | Sha1
  | Sha256
  deriving DecidableEq

/-- `enum Canonicalization` (src/src/dkim/mod.rs lines 27-31). -/
inductive Canonicalization
  | Relaxed
  | Simple
  deriving DecidableEq

/-- `impl Default for Algorithm` (src/src/dkim/mod.rs lines 66-70). -/
def Algorithm.default : Algorithm := .RsaSha256

/-- `impl Default for Canonicalization` (src/src/dkim/mod.rs lines 72-76). -/
def Canonicalization.default : Canonicalization := .Relaxed

/-- `struct Signature` (src/src/dkim/mod.rs lines 45-64).  u32/u64 fields are
Nat (`l` and `x` use 0 for "unset", as the Rust Default does); byte vectors
are `List Nat`. -/
structure Signature where
  v : Nat
  a : Algorithm
  d : String
  s : String
  b : List Nat
  bh : List Nat
  h : List String
  z : List String
  i : String
  l : Nat
  x : Nat
  t : Nat
  r : Bool
  atps : Option String
  atpsh : Option HashAlgorithm
  ch : Canonicalization
  cb : Canonicalization
  deriving DecidableEq

/-- `struct DomainKeyReport` (src/src/dkim/mod.rs lines 78-84). -/
structure DomainKeyReport where
  ra : String
  rp : Nat
  rr : Nat
  rs : Option String
  deriving DecidableEq

/-- Key-record service/flag bit constants, a shared u64 bit domain
(src/src/dkim/mod.rs lines 92-95). -/
def R_SVC_ALL : Nat := 0x04

def R_SVC_EMAIL : Nat := 0x08

def R_FLAG_TESTING : Nat := 0x10

def R_FLAG_MATCH_DOMAIN : Nat := 0x20

/-- Report result-type bit constants, a shared u8 bit domain
(src/src/dkim/mod.rs lines 97-103). -/
def RR_DNS : Nat := 0x01

def RR_OTHER : Nat := 0x02

def RR_POLICY : Nat := 0x04

def RR_SIGNATURE : Nat := 0x08

def RR_UNKNOWN_TAG : Nat := 0x10

def RR_VERIFICATION : Nat := 0x20

def RR_EXPIRATION : Nat := 0x40

/-- `enum Service` (src/src/dkim/mod.rs lines 105-110). -/
inductive Service
  | All
  | Email
  deriving DecidableEq

/-- `enum Flag` (src/src/dkim/mod.rs lines 112-117). -/
inductive Flag
  | Testing
  | MatchDomain
  deriving DecidableEq

/-- `impl From<Service> for u64` (src/src/dkim/mod.rs lines 131-135): the
discriminant values assigned by `#[repr(u64)]`. -/
def serviceToU64 : Service → Nat
  | .All => R_SVC_ALL
  | .Email => R_SVC_EMAIL

/-- `impl From<Flag> for u64` (src/src/dkim/mod.rs lines 119-123). -/
def flagToU64 : Flag → Nat
  | .Testing => R_FLAG_TESTING
  | .MatchDomain => R_FLAG_MATCH_DOMAIN

/-- The u64-domain constants in declaration order. -/
def keyFlagConsts : List Nat := [R_SVC_ALL, R_SVC_EMAIL, R_FLAG_TESTING, R_FLAG_MATCH_DOMAIN]

/-- The u8-domain report result-type constants in declaration order. -/
def rrConsts : List Nat :=
  [RR_DNS, RR_OTHER, RR_POLICY, RR_SIGNATURE, RR_UNKNOWN_TAG, RR_VERIFICATION, RR_EXPIRATION]

/-- Bitwise-OR fold used to combine a set of bit constants into one integer. -/
def orAll (l : List Nat) : Nat := l.foldr (· ||| ·) 0

/-- Modelled from the spec: the crate-level `Error` type is not under src/.
Variants follow the error conditions the spec names in sections 4.2, 4.5 and
7; DNS-layer errors carry a detail string. -/
inductive Error
  | DnsError (detail : String)
  | SignatureParseError
  | UnsupportedAlgorithm
  | SignatureExpired
  | KeyRevoked
  | AlgorithmMismatch
  | NoKeyFound
  | AmbiguousKey
  | StrictSubdomainViolation
  | BodyHashMismatch
  | BadSignature
  | InvalidBodyLength
  | NoSignature
  | ArcInstanceSequenceInvalid
  deriving DecidableEq

/-- The `matches!(&err, Error::DnsError(_))` test used at
src/src/dkim/mod.rs lines 221 and 263. -/
def Error.isDnsError : Error → Bool
  | .DnsError _ => true
  | _ => false

/-- The crate-level `DkimResult` tags (spec section 3, DkimOutput). -/
inductive DkimResult
  | Pass
  | Neutral (err : Error)
  | Fail (err : Error)
  | PermError (err : Error)
  | TempError (err : Error)
  deriving DecidableEq

/-- `impl From<Error> for DkimResult` (src/src/dkim/mod.rs lines 261-268). -/
def DkimResult.ofError (err : Error) : DkimResult :=
  if err.isDnsError then DkimResult.TempError err else DkimResult.PermError err

/-- The crate-level `DkimOutput` struct: result tag, borrowed signature
reference (modelled as `Option Signature`), failure-report address, ATPS
flag. -/
structure DkimOutput where
  result : DkimResult
  signature : Option Signature
  report : Option String
  is_atps : Bool
  deriving DecidableEq

/-- `DkimOutput::pass` (src/src/dkim/mod.rs lines 175-182). -/
def DkimOutput.pass : DkimOutput :=
  { result := DkimResult.Pass, signature := none, report := none, is_atps := false }

/-- `DkimOutput::perm_err` (src/src/dkim/mod.rs lines 184-191). -/
def DkimOutput.perm_err (err : Error) : DkimOutput :=
  { result := DkimResult.PermError err, signature := none, report := none, is_atps := false }

/-- `DkimOutput::temp_err` (src/src/dkim/mod.rs lines 193-200). -/
def DkimOutput.temp_err (err : Error) : DkimOutput :=
  { result := DkimResult.TempError err, signature := none, report := none, is_atps := false }

/-- `DkimOutput::fail` (src/src/dkim/mod.rs lines 202-209). -/
def DkimOutput.fail (err : Error) : DkimOutput :=
  { result := DkimResult.Fail err, signature := none, report := none, is_atps := false }

/-- `DkimOutput::neutral` (src/src/dkim/mod.rs lines 211-218). -/
def DkimOutput.neutral (err : Error) : DkimOutput :=
  { result := DkimResult.Neutral err, signature := none, report := none, is_atps := false }

/-- `DkimOutput::dns_error` (src/src/dkim/mod.rs lines 220-226). -/
def DkimOutput.dns_error (err : Error) : DkimOutput :=
  if err.isDnsError then DkimOutput.temp_err err else DkimOutput.perm_err err

/-- `DkimOutput::with_signature` (src/src/dkim/mod.rs lines 228-231). -/
def DkimOutput.with_signature (o : DkimOutput) (sig : Signature) : DkimOutput :=
  { o with signature := some sig }

/-- `DkimOutput::with_atps` (src/src/dkim/mod.rs lines 233-236). -/
def DkimOutput.with_atps (o : DkimOutput) : DkimOutput :=
  { o with is_atps := true }

/-- `impl From<Algorithm> for HashAlgorithm` (src/src/dkim/mod.rs lines
137-144). -/
def HashAlgorithm.ofAlgorithm (a : Algorithm) : HashAlgorithm :=
  match a with
  | .RsaSha256 | .Ed25519Sha256 => HashAlgorithm.Sha256
  | .RsaSha1 => HashAlgorithm.Sha1

/-! Canonicalization engine.  The canonicalize submodule is not under src/;
the functions below are modelled from the spec, section 4.1. -/

/-- Carriage-return byte. -/
def CR : Nat := 13

/-- Line-feed byte. -/
def LF : Nat := 10

/-- Space byte. -/
def SP : Nat := 32

/-- Horizontal-tab byte. -/
def HTAB : Nat := 9

/-- Whitespace test for canonicalization: space or horizontal tab. -/
def isWSP (b : Nat) : Bool := b == SP || b == HTAB

/-- Glue a byte onto the first chunk of a chunk list. -/
def consHead (b : Nat) : List (List Nat) → List (List Nat)
  | [] => [[b]]
  | l :: ls => (b :: l) :: ls

/-- Split a byte sequence at every LF; a sequence with n line feeds yields
n+1 chunks (so a trailing LF yields a final empty chunk). -/
def splitOnLF : List Nat → List (List Nat)
  | [] => [[]]
  | b :: rest => if b = LF then [] :: splitOnLF rest else consHead b (splitOnLF rest)

/-- Remove a single trailing CR, the remnant of a CRLF line ending. -/
def stripCREnd : List Nat → List Nat
  | [] => []
  | [b] => if b = CR then [] else [b]
  | b :: c :: rest => b :: stripCREnd (c :: rest)

/-- Modelled from the spec: split a body into lines, accepting both LF and
CRLF line endings (line-ending normalization). -/
def splitBodyLines (body : List Nat) : List (List Nat) :=
  (splitOnLF body).map stripCREnd

/-- Remove all trailing empty lines. -/
def dropTrailingEmpty (ls : List (List Nat)) : List (List Nat) :=
  (ls.reverse.dropWhile (·.isEmpty)).reverse

/-- Join lines, terminating every line with CRLF. -/
def joinCRLF (ls : List (List Nat)) : List Nat :=
  ls.foldr (fun l acc => l ++ CR :: LF :: acc) []

/-- Collapse every run of whitespace into a single space. -/
def collapseWSP : List Nat → List Nat
  | [] => []
  | [b] => if isWSP b then [SP] else [b]
  | a :: b :: rest =>
    if isWSP a && isWSP b then collapseWSP (b :: rest)
    else (if isWSP a then SP else a) :: collapseWSP (b :: rest)

/-- Strip trailing whitespace. -/
def rstripWSP (l : List Nat) : List Nat := (l.reverse.dropWhile isWSP).reverse

/-- Strip leading whitespace. -/
def lstripWSP (l : List Nat) : List Nat := l.dropWhile isWSP

/-- Relaxed per-line body transformation: collapse whitespace runs to single
spaces, then strip trailing whitespace. -/
def relaxLine (l : List Nat) : List Nat := rstripWSP (collapseWSP l)

/-- Modelled from the spec: `canonicalize_body(body, mode)` (the canonicalize
submodule is not under src/).  Simple mode normalizes line endings to CRLF and
removes all trailing empty lines, leaving exactly one trailing CRLF when lines
remain; an entirely empty body canonicalizes to a single CRLF.  Relaxed mode
additionally collapses whitespace runs within each line to single spaces and
strips trailing whitespace per line, then applies the same trailing-empty-line
removal rule. -/
def canonicalize_body (mode : Canonicalization) (body : List Nat) : List Nat :=
  match mode with
  | .Simple =>
    if (dropTrailingEmpty (splitBodyLines body)).isEmpty then [CR, LF]
    else joinCRLF (dropTrailingEmpty (splitBodyLines body))
  | .Relaxed =>
    joinCRLF (dropTrailingEmpty ((splitBodyLines body).map relaxLine))

/-- Invariant of a whitespace-collapsed line: no horizontal tab and no two
adjacent whitespace bytes. -/
def normWSP : List Nat → Bool
  | [] => true
  | [a] => a != HTAB
  | a :: b :: rest => a != HTAB && !(isWSP a && isWSP b) && normWSP (b :: rest)

/-- Lowercase an ASCII byte. -/
def toLowerByte (b : Nat) : Nat := if 65 ≤ b ∧ b ≤ 90 then b + 32 else b

/-- Modelled from the spec: relaxed canonicalization of one header given its
name and raw value — lowercase the name, unfold continuation lines (drop the
CRLF remnants), collapse internal whitespace runs to single spaces, trim
leading and trailing whitespace around the value, terminate with CRLF. -/
def relaxed_header (name value : List Nat) : List Nat :=
  name.map toLowerByte ++ 58 ::
    (lstripWSP (rstripWSP (collapseWSP (value.filter (fun b => b != CR && b != LF))))) ++ [CR, LF]

/-- Modelled from the spec: simple canonicalization of one header — name,
colon and value pass through unchanged, with a normalized CRLF terminator. -/
def simple_header (name value : List Nat) : List Nat :=
  name ++ 58 :: value ++ [CR, LF]

/-- Modelled from the spec: `canonicalize_header(name, value, mode)`. -/
def canonicalize_header (mode : Canonicalization) (name value : List Nat) : List Nat :=
  match mode with
  | .Simple => simple_header name value
  | .Relaxed => relaxed_header name value

/-- Fold a physical header line into the unfolded header list under
construction (kept in reverse order): a line starting with whitespace is a
continuation of the previous header. -/
def unfoldStep (acc : List (List Nat)) (l : List Nat) : List (List Nat) :=
  match acc, l with
  | a :: rest, b :: bs => if isWSP b then (a ++ b :: bs) :: rest else (b :: bs) :: a :: rest
  | _, _ => l :: acc

/-- Unfold header continuation lines: each line beginning with whitespace is
joined to the header it continues. -/
def unfoldLines (ls : List (List Nat)) : List (List Nat) :=
  (ls.foldl unfoldStep []).reverse

/-- Modelled from the spec: relaxed canonicalization of a raw header block —
split into physical lines, unfold continuations, and canonicalize each header
at its first colon. -/
def canonicalize_headers_relaxed (block : List Nat) : List Nat :=
  (unfoldLines (dropTrailingEmpty (splitBodyLines block))).foldr
    (fun h acc =>
      relaxed_header (h.takeWhile (fun b => b != 58)) ((h.dropWhile (fun b => b != 58)).drop 1)
        ++ acc) []

/-- Byte sequence of a string, for concrete test vectors. -/
def str2bytes (s : String) : List Nat := s.data.map Char.toNat

/-! Signing and verification pipelines.  The sign and verify submodules and
the key material of common::crypto are not under src/; the definitions below
are modelled from the spec, sections 4.4 and 4.5, with symbolic
cryptography. -/

/-- Modelled from the spec: private signing key material; the key carries its
algorithm (common::crypto SigningKey is not under src/). -/
structure SigningKey where
  keyId : Nat
  alg : Algorithm
  deriving DecidableEq

/-- Modelled from the spec: a DNS-published public key. -/
structure PublicKey where
  keyId : Nat
  alg : Algorithm
  deriving DecidableEq

/-- The public half of a signing key. -/
def SigningKey.publicKey (k : SigningKey) : PublicKey := ⟨k.keyId, k.alg⟩

/-- Numeric tag of an algorithm, for symbolic byte encodings. -/
def Algorithm.code : Algorithm → Nat
  | .RsaSha256 => 0
  | .RsaSha1 => 1
  | .Ed25519Sha256 => 2

/-- Key family of an algorithm: RSA or Ed25519. -/
def Algorithm.family : Algorithm → Nat
  | .RsaSha256 | .RsaSha1 => 0
  | .Ed25519Sha256 => 1

/-- Numeric tag of a hash algorithm. -/
def HashAlgorithm.code : HashAlgorithm → Nat
  | .Sha1 => 0
  | .Sha256 => 1

/-- Modelled from the spec: symbolic cryptographic hash — the digest
determines and is determined by the hash algorithm and the hashed bytes. -/
def hashBytes (h : HashAlgorithm) (m : List Nat) : List Nat :=
  h.code :: m

/-- Modelled from the spec: symbolic signing — the signature bytes determine
the signing key identity, the algorithm and the signed data. -/
def signBytes (k : SigningKey) (m : List Nat) : List Nat :=
  k.keyId :: k.alg.code :: m

/-- Modelled from the spec: symbolic signature verification — the signature
bytes must have been produced over exactly these bytes by the private key
matching this public key. -/
def verifyBytes (p : PublicKey) (m : List Nat) (s : List Nat) : Bool :=
  decide (s = p.keyId :: p.alg.code :: m)

/-- A message: header fields (name, raw value) in message order, plus a
body. -/
structure Message where
  headers : List (List Nat × List Nat)
  body : List Nat
  deriving DecidableEq

/-- Case-insensitive header-name comparison. -/
def lowerEq (a b : List Nat) : Bool := a.map toLowerByte == b.map toLowerByte

/-- Remove the next unconsumed instance of a header name from a bottom-up
header list, returning it and the remaining instances. -/
def pickHeader (name : List Nat) :
    List (List Nat × List Nat) → Option ((List Nat × List Nat) × List (List Nat × List Nat))
  | [] => none
  | h :: rest =>
    if lowerEq h.1 name then some (h, rest)
    else
      match pickHeader name rest with
      | none => none
      | some (x, r) => some (x, h :: r)

/-- Modelled from the spec: select the header instances named by the
signed-header list, scanning from the bottom of the message upward, each
repeated reference consuming the next-earlier unconsumed instance (RFC 6376
section 5.4); a name with no unconsumed instance contributes nothing. -/
def selectHeaders (names : List (List Nat)) (revHs : List (List Nat × List Nat)) :
    List (List Nat × List Nat) :=
  match names with
  | [] => []
  | n :: ns =>
    match pickHeader n revHs with
    | none => selectHeaders ns revHs
    | some (h, rest) => h :: selectHeaders ns rest

/-- Modelled from the spec: the canonical byte sequence of the selected
signed headers of a message, in signed-header-list order. -/
def headerBlockBytes (mode : Canonicalization) (names : List (List Nat))
    (msg : Message) : List Nat :=
  (selectHeaders names msg.headers.reverse).foldr
    (fun hv acc => canonicalize_header mode hv.1 hv.2 ++ acc) []

/-- Modelled from the spec: the canonicalized signature template serialized as
the final header of the signed data (RFC 6376 section 3.7); the value of the
`b` tag is excluded from the signed data, so the encoding omits `b`. -/
def encodeTemplate (sig : Signature) : List Nat :=
  sig.v :: sig.a.code :: sig.t :: sig.x :: sig.l ::
    (str2bytes sig.d ++ str2bytes sig.s ++ str2bytes sig.i
      ++ (sig.h.map str2bytes).foldr (· ++ ·) [] ++ sig.bh)

/-- Modelled from the spec: the byte sequence that is signed — the selected
canonicalized headers followed by the canonicalized template with empty
signature bytes. -/
def signedData (msg : Message) (sig : Signature) : List Nat :=
  headerBlockBytes sig.ch (sig.h.map str2bytes) msg ++ encodeTemplate { sig with b := [] }

/-- Body hash: the canonical body, truncated to the first `l` bytes when a
body-length limit is set (`l` = 0 means unlimited), hashed with the
algorithm's hash function. -/
def bodyHashOf (alg : Algorithm) (cb : Canonicalization) (l : Nat) (body : List Nat) : List Nat :=
  hashBytes (HashAlgorithm.ofAlgorithm alg)
    (if l = 0 then canonicalize_body cb body else (canonicalize_body cb body).take l)

/-- `struct DkimSigner` (src/src/dkim/mod.rs lines 33-38), with the typestate
parameter erased: key material plus the signature template. -/
structure DkimSigner where
  key : SigningKey
  template : Signature
  deriving DecidableEq

/-- Modelled from the spec: the filled signature template of the signing
pipeline, section 4.4 — `b` empty, `bh` from the canonical body, `t` the
current time, `x` the configured expiration offset added to the current time
(0 when no offset is configured), algorithm taken from the key. -/
def signatureTemplate (signer : DkimSigner) (msg : Message) (now : Nat) : Signature :=
  { signer.template with
    a := signer.key.alg
    bh := bodyHashOf signer.key.alg signer.template.cb signer.template.l msg.body
    b := []
    t := now
    x := if signer.template.x = 0 then 0 else now + signer.template.x }

/-- Modelled from the spec: the signing pipeline, section 4.4 (sign.rs is not
under src/): emit the filled template with `b` holding the signature computed
over the canonicalized selected headers followed by the canonicalized
template. -/
def dkimSign (signer : DkimSigner) (msg : Message) (now : Nat) : Signature :=
  { signatureTemplate signer msg now with
    b := signBytes signer.key (signedData msg (signatureTemplate signer msg now)) }

/-- Modelled from the spec: the verification pipeline for one parsed
signature and its fetched public key, sections 4.1, 4.2 and 4.5 (verify.rs
is not under src/).  Checks in order: expiration (`x` present and before `t`
or before the verification time yields Fail(SignatureExpired)); key algorithm
family versus the signature's declared family; a body-length limit exceeding
the canonical body length fails permanently; body-hash comparison
(Fail(BodyHashMismatch) skips cryptographic verification); cryptographic
signature verification (Fail(BadSignature) or Pass). -/
def dkimVerify (msg : Message) (sig : Signature) (pk : PublicKey) (now : Nat) : DkimResult :=
  if sig.x ≠ 0 ∧ (sig.x < sig.t ∨ sig.x < now) then DkimResult.Fail Error.SignatureExpired
  else if pk.alg.family ≠ sig.a.family then DkimResult.PermError Error.AlgorithmMismatch
  else if sig.l ≠ 0 ∧ (canonicalize_body sig.cb msg.body).length < sig.l then
    DkimResult.PermError Error.InvalidBodyLength
  else if bodyHashOf sig.a sig.cb sig.l msg.body ≠ sig.bh then
    DkimResult.Fail Error.BodyHashMismatch
  else if verifyBytes pk (signedData msg sig) sig.b then DkimResult.Pass
  else DkimResult.Fail Error.BadSignature

/-! Typestate builder.  The builder methods live in builder.rs, which is not
under src/; only the marker state types are in src/src/dkim/mod.rs. -/

/-- The four builder states (marker types NeedDomain, NeedSelector,
NeedHeaders, Done at src/src/dkim/mod.rs lines 40-43). -/
inductive BuilderState
  | needDomain
  | needSelector
  | needHeaders
  | done
  deriving DecidableEq

/-- Builder actions: the three mandatory settings plus the optional
configuration settings available once the builder is complete. -/
inductive BuilderAction
  | setDomain
  | setSelector
  | setHeaders
  | setOption
  deriving DecidableEq, BEq

/-- Modelled from the spec: the typestate transitions of the DkimSigner
builder (builder.rs is not under src/).  Setting the domain consumes a
NeedDomain builder and returns a NeedSelector builder; the selector takes
NeedSelector to NeedHeaders; the signed-header list takes NeedHeaders to
Done; optional settings (canonicalization modes, body-length limit,
identity/report settings) keep a Done builder Done; an action not available
in a state has no successor. -/
def builderStep : BuilderState → BuilderAction → Option BuilderState
  | .needDomain, .setDomain => some .needSelector
  | .needSelector, .setSelector => some .needHeaders
  | .needHeaders, .setHeaders => some .done
  | .done, .setOption => some .done
  | _, _ => none

/-- Run a sequence of builder actions from a state. -/
def builderRun : BuilderState → List BuilderAction → Option BuilderState
  | s, [] => some s
  | s, a :: acts =>
    match builderStep s a with
    | none => none
    | some s2 => builderRun s2 acts

/-- The sign operation is exposed only in the Done state. -/
def canSign : BuilderState → Bool
  | .done => true
  | _ => false

/-- Concrete signing key for witnesses. -/
def witnessKey : SigningKey := { keyId := 7, alg := Algorithm.Ed25519Sha256 }

/-- Concrete signer template for witnesses: no body-length limit, no
expiration offset. -/
def witnessTemplate : Signature :=
  { v := 1, a := Algorithm.RsaSha256, d := "example.org", s := "sel", b := [], bh := [],
    h := ["from", "subject"], z := [], i := "", l := 0, x := 0, t := 0, r := false,
    atps := none, atpsh := none, ch := Canonicalization.Relaxed, cb := Canonicalization.Simple }

/-- Concrete signer for witnesses. -/
def witnessSigner : DkimSigner := { key := witnessKey, template := witnessTemplate }

/-- Concrete message for witnesses. -/
def witnessMsg : Message :=
  { headers := [(str2bytes "From", str2bytes " a@x.com"), (str2bytes "Subject", str2bytes " Hi")],
    body := str2bytes "hello world" }

/-- Concrete expired signature for witnesses: `x` = 5 lies before `t` = 10. -/
def witnessExpiredSig : Signature := { witnessTemplate with x := 5, t := 10 }

/-- C2: the hash algorithm is a fixed function of the signature algorithm:
`HashAlgorithm.ofAlgorithm` maps RsaSha1 to Sha1 and both RsaSha256 and
Ed25519Sha256 to Sha256, for every Algorithm value, and Sha1 arises exactly
for RsaSha1 — there is no independent configuration path. -/
theorem hash_algorithm_determined_by_algorithm :
    HashAlgorithm.ofAlgorithm .RsaSha1 = .Sha1
    ∧ HashAlgorithm.ofAlgorithm .RsaSha256 = .Sha256
    ∧ HashAlgorithm.ofAlgorithm .Ed25519Sha256 = .Sha256
    ∧ ∀ a : Algorithm, (HashAlgorithm.ofAlgorithm a = .Sha1 ↔ a = .RsaSha1) := by
  refine ⟨rfl, rfl, rfl, ?_⟩
  intro a
  cases a <;> simp [HashAlgorithm.ofAlgorithm]

/-- C3: converting an Error into a verification result classifies it as
TempError exactly when it is a DNS-layer `Error.DnsError`, and as PermError in
every other case; both `DkimOutput.dns_error` and `DkimResult.ofError`
(`From<Error> for DkimResult`) obey this rule. -/
theorem error_to_result_dns_classification : ∀ e : Error,
    (DkimResult.ofError e = DkimResult.TempError e ↔ ∃ d, e = Error.DnsError d)
    ∧ (DkimOutput.dns_error e = DkimOutput.temp_err e ↔ ∃ d, e = Error.DnsError d)
    ∧ (DkimResult.ofError e = DkimResult.PermError e ↔ ¬∃ d, e = Error.DnsError d)
    ∧ (DkimOutput.dns_error e = DkimOutput.perm_err e ↔ ¬∃ d, e = Error.DnsError d) := by
  intro e
  cases e <;>
    simp [DkimResult.ofError, DkimOutput.dns_error, Error.isDnsError,
      DkimOutput.temp_err, DkimOutput.perm_err]

/-- C8 counterexample: the eleven constants are not pairwise distinct as
integer values — the u64 Service constant `All` (0x04) and the u8 report
result-type constant RR_POLICY (0x04) are both 4, so pairwise distinctness
of the combined collection fails (it holds only within each shared bit
domain). -/
theorem service_rr_value_collision :
    R_SVC_ALL = RR_POLICY ∧ ¬ (keyFlagConsts ++ rrConsts).Pairwise (· ≠ ·) := by
  decide

/-- C8 (amended): within each shared integer domain — the u64 domain of the
Service and Flag constants and the u8 domain of the seven report result-type
constants — the constants are pairwise-distinct single-bit values, any subset
combines losslessly by bitwise OR with each member recovered by bitwise AND,
and the From conversions to u64 preserve exactly the declared values. -/
theorem bitmask_constants_lossless :
    keyFlagConsts.Pairwise (· ≠ ·)
    ∧ rrConsts.Pairwise (· ≠ ·)
    ∧ (keyFlagConsts.all fun c => c != 0 && c &&& (c - 1) == 0) = true
    ∧ (rrConsts.all fun c => c != 0 && c &&& (c - 1) == 0) = true
    ∧ (keyFlagConsts.sublists.all fun S =>
        keyFlagConsts.all fun c => ((orAll S &&& c != 0) == S.contains c)) = true
    ∧ (rrConsts.sublists.all fun S =>
        rrConsts.all fun c => ((orAll S &&& c != 0) == S.contains c)) = true
    ∧ serviceToU64 .All = 0x04 ∧ serviceToU64 .Email = 0x08
    ∧ flagToU64 .Testing = 0x10 ∧ flagToU64 .MatchDomain = 0x20 := by
  decide

/-- C9: every DkimOutput constructor (pass, perm_err, temp_err, fail, neutral,
dns_error) returns an output whose signature reference is none, whose
failure-report address is none and whose is_atps flag is false; only the
result tag varies across them. -/
theorem constructors_only_set_result : ∀ e : Error,
    DkimOutput.pass
      = { result := DkimResult.Pass, signature := none, report := none, is_atps := false }
    ∧ DkimOutput.perm_err e
      = { result := DkimResult.PermError e, signature := none, report := none, is_atps := false }
    ∧ DkimOutput.temp_err e
      = { result := DkimResult.TempError e, signature := none, report := none, is_atps := false }
    ∧ DkimOutput.fail e
      = { result := DkimResult.Fail e, signature := none, report := none, is_atps := false }
    ∧ DkimOutput.neutral e
      = { result := DkimResult.Neutral e, signature := none, report := none, is_atps := false }
    ∧ (DkimOutput.dns_error e).signature = none
    ∧ (DkimOutput.dns_error e).report = none
    ∧ (DkimOutput.dns_error e).is_atps = false := by
  intro e
  refine ⟨rfl, rfl, rfl, rfl, rfl, ?_, ?_, ?_⟩ <;>
    cases h : e.isDnsError <;>
      simp [DkimOutput.dns_error, h, DkimOutput.temp_err, DkimOutput.perm_err]

/-- C10: with_atps sets is_atps to true and leaves the result, signature and
report fields unchanged; with_signature sets only the signature field and
leaves result, report and is_atps unchanged. -/
theorem with_atps_with_signature_frame : ∀ (o : DkimOutput) (sig : Signature),
    (o.with_atps).is_atps = true
    ∧ (o.with_atps).result = o.result
    ∧ (o.with_atps).signature = o.signature
    ∧ (o.with_atps).report = o.report
    ∧ (o.with_signature sig).signature = some sig
    ∧ (o.with_signature sig).result = o.result
    ∧ (o.with_signature sig).report = o.report
    ∧ (o.with_signature sig).is_atps = o.is_atps := by
  intro o sig
  exact ⟨rfl, rfl, rfl, rfl, rfl, rfl, rfl, rfl⟩

theorem splitOnLF_ne_nil (l : List Nat) : splitOnLF l ≠ [] := by
  induction l with
  | nil => simp [splitOnLF]
  | cons b rest ih =>
    simp only [splitOnLF]
    split
    · simp
    · cases h : splitOnLF rest with
      | nil => simp [consHead]
      | cons x xs => simp [consHead]

theorem noLF_splitOnLF (l : List Nat) : ∀ c ∈ splitOnLF l, LF ∉ c := by
  induction l with
  | nil =>
    intro c hc
    simp [splitOnLF] at hc
    simp [hc]
  | cons b rest ih =>
    intro c hc
    by_cases hb : b = LF
    · simp only [splitOnLF, if_pos hb] at hc
      rcases List.mem_cons.mp hc with h | h
      · simp [h]
      · exact ih c h
    · simp only [splitOnLF, if_neg hb] at hc
      cases hsp : splitOnLF rest with
      | nil => exact absurd hsp (splitOnLF_ne_nil rest)
      | cons x xs =>
        rw [hsp] at hc
        simp only [consHead] at hc
        rcases List.mem_cons.mp hc with h | h
        · subst h
          intro hmem
          rcases List.mem_cons.mp hmem with h2 | h2
          · exact hb h2.symm
          · exact ih x (by rw [hsp]; exact List.mem_cons_self x xs) h2
        · exact ih c (by rw [hsp]; exact List.mem_cons_of_mem x h)

theorem splitOnLF_append_LF (c rest : List Nat) (hc : LF ∉ c) :
    splitOnLF (c ++ LF :: rest) = c :: splitOnLF rest := by
  induction c with
  | nil => simp [splitOnLF]
  | cons b cs ih =>
    have hb : b ≠ LF := by
      rintro rfl
      exact hc (List.mem_cons_self _ _)
    have hcs : LF ∉ cs := fun h => hc (List.mem_cons_of_mem _ h)
    rw [List.cons_append]
    show (if b = LF then [] :: splitOnLF (cs ++ LF :: rest)
          else consHead b (splitOnLF (cs ++ LF :: rest))) = _
    rw [if_neg hb, ih hcs]
    rfl

theorem splitOnLF_joinCRLF (ls : List (List Nat)) (h : ∀ c ∈ ls, LF ∉ c) :
    splitOnLF (joinCRLF ls) = ls.map (· ++ [CR]) ++ [[]] := by
  induction ls with
  | nil => simp [joinCRLF, splitOnLF]
  | cons l ls ih =>
    have hl : LF ∉ l ++ [CR] := by
      intro hm
      rcases List.mem_append.mp hm with hm | hm
      · exact h l (List.mem_cons_self _ _) hm
      · exact absurd hm (by decide)
    have h2 : joinCRLF (l :: ls) = (l ++ [CR]) ++ LF :: joinCRLF ls :=
      (List.append_assoc l [CR] (LF :: joinCRLF ls)).symm
    rw [h2, splitOnLF_append_LF _ _ hl, ih (fun c hc => h c (List.mem_cons_of_mem _ hc))]
    simp

theorem stripCREnd_concat_CR (l : List Nat) : stripCREnd (l ++ [CR]) = l := by
  induction l with
  | nil => simp [stripCREnd]
  | cons a l ih =>
    cases l with
    | nil => simp [stripCREnd, CR]
    | cons x xs =>
      have h1 : stripCREnd (a :: ((x :: xs) ++ [CR])) = a :: stripCREnd ((x :: xs) ++ [CR]) := rfl
      rw [List.cons_append, h1, ih]

theorem mem_stripCREnd (l : List Nat) : ∀ x ∈ stripCREnd l, x ∈ l := by
  induction l with
  | nil => simp [stripCREnd]
  | cons a l ih =>
    cases l with
    | nil =>
      intro x hx
      simp only [stripCREnd] at hx
      split at hx
      · simp at hx
      · simpa using hx
    | cons c rest =>
      intro x hx
      have h1 : stripCREnd (a :: c :: rest) = a :: stripCREnd (c :: rest) := rfl
      rw [h1] at hx
      rcases List.mem_cons.mp hx with h | h
      · simp [h]
      · exact List.mem_cons_of_mem _ (ih x h)

theorem map_fixed {α : Type} (f : α → α) : ∀ l : List α, (∀ x ∈ l, f x = x) → l.map f = l := by
  intro l
  induction l with
  | nil => intro _; rfl
  | cons a l ih =>
    intro h
    simp only [List.map_cons, h a (List.mem_cons_self a l),
      ih (fun x hx => h x (List.mem_cons_of_mem a hx))]

theorem splitBodyLines_joinCRLF (ls : List (List Nat)) (h : ∀ c ∈ ls, LF ∉ c) :
    splitBodyLines (joinCRLF ls) = ls ++ [[]] := by
  unfold splitBodyLines
  rw [splitOnLF_joinCRLF ls h, List.map_append, List.map_map]
  have h1 : ls.map (stripCREnd ∘ fun c => c ++ [CR]) = ls :=
    map_fixed _ ls (fun x _ => stripCREnd_concat_CR x)
  rw [h1]
  rfl

theorem dropWhile_dropWhile {α : Type} (p : α → Bool) (l : List α) :
    (l.dropWhile p).dropWhile p = l.dropWhile p := by
  induction l with
  | nil => rfl
  | cons a l ih =>
    cases h : p a
    · simp [List.dropWhile_cons, h]
    · simp [List.dropWhile_cons, h, ih]

theorem dropTrailingEmpty_append_nil (ls : List (List Nat)) :
    dropTrailingEmpty (ls ++ [[]]) = dropTrailingEmpty ls := by
  unfold dropTrailingEmpty
  rw [List.reverse_append]
  rfl

theorem dropTrailingEmpty_idem (ls : List (List Nat)) :
    dropTrailingEmpty (dropTrailingEmpty ls) = dropTrailingEmpty ls := by
  unfold dropTrailingEmpty
  rw [List.reverse_reverse, dropWhile_dropWhile]

theorem mem_dropWhile {α : Type} (p : α → Bool) (l : List α) :
    ∀ x ∈ l.dropWhile p, x ∈ l := by
  induction l with
  | nil => simp
  | cons a l ih =>
    intro x hx
    cases h : p a
    · rw [List.dropWhile_cons, h] at hx
      simpa using hx
    · rw [List.dropWhile_cons, h] at hx
      simp only [if_true] at hx
      exact List.mem_cons_of_mem _ (ih x hx)

theorem mem_dropTrailingEmpty (ls : List (List Nat)) :
    ∀ x ∈ dropTrailingEmpty ls, x ∈ ls := by
  intro x hx
  unfold dropTrailingEmpty at hx
  rw [List.mem_reverse] at hx
  exact List.mem_reverse.mp (mem_dropWhile _ _ x hx)

theorem noLF_splitBodyLines (body : List Nat) : ∀ c ∈ splitBodyLines body, LF ∉ c := by
  intro c hc
  unfold splitBodyLines at hc
  rcases List.mem_map.mp hc with ⟨y, hy, rfl⟩
  intro hmem
  exact noLF_splitOnLF body y hy (mem_stripCREnd y LF hmem)

theorem head_collapseWSP : ∀ (rest : List Nat) (b : Nat),
    (collapseWSP (b :: rest)).head? = some (if isWSP b then SP else b) := by
  intro rest
  induction rest with
  | nil =>
    intro b
    show (if isWSP b then [SP] else [b]).head? = _
    split <;> rfl
  | cons c rest ih =>
    intro b
    show (if isWSP b && isWSP c then collapseWSP (c :: rest)
          else (if isWSP b then SP else b) :: collapseWSP (c :: rest)).head? = _
    by_cases h : (isWSP b && isWSP c) = true
    · rw [if_pos h, ih c]
      simp only [Bool.and_eq_true] at h
      rw [if_pos h.2, if_pos h.1]
    · rw [if_neg h]
      rfl

theorem collapseWSP_ne_nil (b : Nat) (rest : List Nat) : collapseWSP (b :: rest) ≠ [] := by
  intro h
  have h2 := head_collapseWSP rest b
  rw [h] at h2
  simp at h2

theorem not_wsp_ne_htab {b : Nat} (h : isWSP b = false) : (b != HTAB) = true := by
  simp only [isWSP, SP, HTAB, Bool.or_eq_false_iff, beq_eq_false_iff_ne] at h
  simp [HTAB, h.2]

theorem normWSP_collapseWSP : ∀ l : List Nat, normWSP (collapseWSP l) = true := by
  intro l
  induction l with
  | nil => rfl
  | cons b rest ih =>
    cases rest with
    | nil =>
      show normWSP (if isWSP b then [SP] else [b]) = true
      by_cases h : isWSP b = true
      · rw [if_pos h]; rfl
      · rw [if_neg h]
        show (b != HTAB) = true
        exact not_wsp_ne_htab (Bool.not_eq_true _ ▸ h)
    | cons c rest2 =>
      show normWSP (if isWSP b && isWSP c then collapseWSP (c :: rest2)
            else (if isWSP b then SP else b) :: collapseWSP (c :: rest2)) = true
      by_cases h : (isWSP b && isWSP c) = true
      · rw [if_pos h]; exact ih
      · rw [if_neg h]
        cases hcc : collapseWSP (c :: rest2) with
        | nil => exact absurd hcc (collapseWSP_ne_nil c rest2)
        | cons x xs =>
          have hx : x = if isWSP c then SP else c := by
            have h2 := head_collapseWSP rest2 c
            rw [hcc] at h2
            simpa using h2
          rw [hcc] at ih
          show ((if isWSP b then SP else b) != HTAB
              && !(isWSP (if isWSP b then SP else b) && isWSP x)
              && normWSP (x :: xs)) = true
          simp only [Bool.and_eq_true]
          refine ⟨⟨?_, ?_⟩, ih⟩
          · by_cases hb : isWSP b = true
            · rw [if_pos hb]; decide
            · rw [if_neg hb]
              exact not_wsp_ne_htab (Bool.not_eq_true _ ▸ hb)
          · by_cases hb : isWSP b = true
            · have hcf : isWSP c = false := by
                cases hcv : isWSP c
                · rfl
                · exact absurd (by rw [Bool.and_eq_true]; exact ⟨hb, hcv⟩) h
              rw [if_pos hb, hx, if_neg (by simp [hcf])]
              simp [hcf]
            · rw [if_neg hb]
              have hbf : isWSP b = false := Bool.not_eq_true _ ▸ hb
              simp [hbf]

theorem collapseWSP_of_normWSP : ∀ l : List Nat, normWSP l = true → collapseWSP l = l := by
  intro l
  induction l with
  | nil => intro _; rfl
  | cons b rest ih =>
    cases rest with
    | nil =>
      intro h
      have h1 : (b != HTAB) = true := h
      show (if isWSP b then [SP] else [b]) = [b]
      by_cases hb : isWSP b = true
      · have hbsp : b = SP := by
          have hb2 : b = 32 ∨ b = 9 := by simpa [isWSP, SP, HTAB] using hb
          have h12 : ¬ b = 9 := by simpa [HTAB] using h1
          show b = 32
          omega
        rw [if_pos hb, hbsp]
      · rw [if_neg hb]
    | cons c rest2 =>
      intro h
      have h2 : ((b != HTAB) = true ∧ (!(isWSP b && isWSP c)) = true)
          ∧ normWSP (c :: rest2) = true := by
        have h3 : normWSP (b :: c :: rest2)
            = (b != HTAB && !(isWSP b && isWSP c) && normWSP (c :: rest2)) := rfl
        rw [h3] at h
        simpa only [Bool.and_eq_true] using h
      have hand : (isWSP b && isWSP c) = false := by
        have := h2.1.2
        simp only [Bool.not_eq_true'] at this
        exact this
      show (if isWSP b && isWSP c then collapseWSP (c :: rest2)
            else (if isWSP b then SP else b) :: collapseWSP (c :: rest2)) = b :: c :: rest2
      rw [if_neg (by simp [hand]), ih h2.2]
      by_cases hb : isWSP b = true
      · have hbsp : b = SP := by
          have h1 := h2.1.1
          have hb2 : b = 32 ∨ b = 9 := by simpa [isWSP, SP, HTAB] using hb
          have h12 : ¬ b = 9 := by simpa [HTAB] using h1
          show b = 32
          omega
        rw [if_pos hb, hbsp]
      · rw [if_neg hb]

theorem normWSP_of_append : ∀ l1 l2 : List Nat, normWSP (l1 ++ l2) = true → normWSP l1 = true := by
  intro l1
  induction l1 with
  | nil => intro l2 _; rfl
  | cons a l1 ih =>
    intro l2 h
    cases l1 with
    | nil =>
      cases l2 with
      | nil => exact h
      | cons x xs =>
        have h3 : normWSP (a :: x :: xs)
            = (a != HTAB && !(isWSP a && isWSP x) && normWSP (x :: xs)) := rfl
        rw [List.singleton_append, h3] at h
        simp only [Bool.and_eq_true] at h
        exact h.1.1
    | cons b l1' =>
      have h3 : normWSP (a :: b :: (l1' ++ l2))
          = (a != HTAB && !(isWSP a && isWSP b) && normWSP (b :: (l1' ++ l2))) := rfl
      rw [List.cons_append, List.cons_append, h3] at h
      simp only [Bool.and_eq_true] at h
      have h4 : normWSP (b :: l1') = true := ih l2 h.2
      have h5 : normWSP (a :: b :: l1')
          = (a != HTAB && !(isWSP a && isWSP b) && normWSP (b :: l1')) := rfl
      rw [h5]
      simp only [Bool.and_eq_true]
      exact ⟨h.1, h4⟩

theorem rstripWSP_append (l : List Nat) :
    rstripWSP l ++ (l.reverse.takeWhile isWSP).reverse = l := by
  unfold rstripWSP
  rw [← List.reverse_append, List.takeWhile_append_dropWhile, List.reverse_reverse]

theorem normWSP_rstripWSP (l : List Nat) (h : normWSP l = true) :
    normWSP (rstripWSP l) = true := by
  apply normWSP_of_append (rstripWSP l) ((l.reverse.takeWhile isWSP).reverse)
  rw [rstripWSP_append l]
  exact h

theorem rstripWSP_idem (l : List Nat) : rstripWSP (rstripWSP l) = rstripWSP l := by
  unfold rstripWSP
  rw [List.reverse_reverse, dropWhile_dropWhile]

theorem relaxLine_idem (l : List Nat) : relaxLine (relaxLine l) = relaxLine l := by
  unfold relaxLine
  rw [collapseWSP_of_normWSP _ (normWSP_rstripWSP _ (normWSP_collapseWSP l)), rstripWSP_idem]

theorem mem_collapseWSP : ∀ (l : List Nat) (x : Nat), x ∈ collapseWSP l → x = SP ∨ x ∈ l := by
  intro l
  induction l with
  | nil => intro x hx; simp [collapseWSP] at hx
  | cons b rest ih =>
    cases rest with
    | nil =>
      intro x hx
      rw [show collapseWSP [b] = if isWSP b then [SP] else [b] from rfl] at hx
      by_cases hb : isWSP b = true
      · rw [if_pos hb] at hx
        simp at hx
        exact Or.inl hx
      · rw [if_neg hb] at hx
        simp at hx
        exact Or.inr (by simp [hx])
    | cons c rest2 =>
      intro x hx
      rw [show collapseWSP (b :: c :: rest2) = if isWSP b && isWSP c then collapseWSP (c :: rest2)
          else (if isWSP b then SP else b) :: collapseWSP (c :: rest2) from rfl] at hx
      by_cases h : (isWSP b && isWSP c) = true
      · rw [if_pos h] at hx
        rcases ih x hx with h1 | h1
        · exact Or.inl h1
        · exact Or.inr (List.mem_cons_of_mem _ h1)
      · rw [if_neg h] at hx
        rcases List.mem_cons.mp hx with h1 | h1
        · by_cases hb : isWSP b = true
          · rw [if_pos hb] at h1
            exact Or.inl h1
          · rw [if_neg hb] at h1
            exact Or.inr (by simp [h1])
        · rcases ih x h1 with h2 | h2
          · exact Or.inl h2
          · exact Or.inr (List.mem_cons_of_mem _ h2)

theorem noLF_relaxLine (l : List Nat) (h : LF ∉ l) : LF ∉ relaxLine l := by
  intro hmem
  unfold relaxLine rstripWSP at hmem
  rw [List.mem_reverse] at hmem
  have h1 := mem_dropWhile isWSP (collapseWSP l).reverse LF hmem
  rw [List.mem_reverse] at h1
  rcases mem_collapseWSP l LF h1 with h2 | h2
  · exact absurd h2 (by decide)
  · exact h h2

/-- C5: body canonicalization is idempotent — for every byte sequence and for
each mode (Relaxed or Simple), applying body canonicalization to its own
output yields the same bytes as applying it once. -/
theorem canonicalize_body_idempotent :
    ∀ (mode : Canonicalization) (body : List Nat),
      canonicalize_body mode (canonicalize_body mode body) = canonicalize_body mode body := by
  intro mode body
  cases mode with
  | Simple =>
    by_cases h : (dropTrailingEmpty (splitBodyLines body)).isEmpty = true
    · have h1 : canonicalize_body .Simple body = [CR, LF] := by
        show (if (dropTrailingEmpty (splitBodyLines body)).isEmpty then [CR, LF]
              else joinCRLF (dropTrailingEmpty (splitBodyLines body))) = [CR, LF]
        rw [if_pos h]
      rw [h1]
      decide
    · have h1 : canonicalize_body .Simple body
          = joinCRLF (dropTrailingEmpty (splitBodyLines body)) := by
        show (if (dropTrailingEmpty (splitBodyLines body)).isEmpty then [CR, LF]
              else joinCRLF (dropTrailingEmpty (splitBodyLines body))) = _
        rw [if_neg h]
      set ls := dropTrailingEmpty (splitBodyLines body) with hls
      have hLF : ∀ c ∈ ls, LF ∉ c := fun c hc =>
        noLF_splitBodyLines body c (mem_dropTrailingEmpty _ c hc)
      have h2 : splitBodyLines (joinCRLF ls) = ls ++ [[]] := splitBodyLines_joinCRLF ls hLF
      have h3 : dropTrailingEmpty ls = ls := by
        rw [hls]
        exact dropTrailingEmpty_idem _
      have h4 : dropTrailingEmpty (splitBodyLines (joinCRLF ls)) = ls := by
        rw [h2, dropTrailingEmpty_append_nil, h3]
      rw [h1]
      show (if (dropTrailingEmpty (splitBodyLines (joinCRLF ls))).isEmpty then [CR, LF]
            else joinCRLF (dropTrailingEmpty (splitBodyLines (joinCRLF ls)))) = joinCRLF ls
      rw [h4]
      rw [if_neg h]
  | Relaxed =>
    set ls := dropTrailingEmpty ((splitBodyLines body).map relaxLine) with hls
    have hmem : ∀ x ∈ ls, ∃ y, x = relaxLine y ∧ LF ∉ y := by
      intro x hx
      have hx2 := mem_dropTrailingEmpty _ x hx
      rcases List.mem_map.mp hx2 with ⟨y, hy, hxy⟩
      exact ⟨y, hxy.symm, noLF_splitBodyLines body y hy⟩
    have hLF : ∀ c ∈ ls, LF ∉ c := by
      intro c hc
      rcases hmem c hc with ⟨y, rfl, hy⟩
      exact noLF_relaxLine y hy
    have h2 : splitBodyLines (joinCRLF ls) = ls ++ [[]] := splitBodyLines_joinCRLF ls hLF
    have h3 : ls.map relaxLine = ls := by
      apply map_fixed
      intro x hx
      rcases hmem x hx with ⟨y, rfl, _⟩
      exact relaxLine_idem y
    have h5 : dropTrailingEmpty ls = ls := by
      rw [hls]
      exact dropTrailingEmpty_idem _
    show joinCRLF (dropTrailingEmpty ((splitBodyLines (joinCRLF ls)).map relaxLine))
        = joinCRLF ls
    rw [h2, List.map_append, h3,
      show List.map relaxLine [[]] = ([[]] : List (List Nat)) from rfl,
      dropTrailingEmpty_append_nil, h5]

/-- C6: relaxed header canonicalization of the header block
`From: a@x.com\r\nSubject:  Hi \r\n` produces exactly
`from:a@x.com\r\nsubject:Hi\r\n`, and simple body canonicalization of the
empty body produces exactly the two bytes CR LF. -/
theorem canonicalization_examples :
    canonicalize_headers_relaxed (str2bytes "From: a@x.com\r\nSubject:  Hi \r\n")
        = str2bytes "from:a@x.com\r\nsubject:Hi\r\n"
    ∧ canonicalize_body .Simple [] = [CR, LF] := by
  exact ⟨by decide, by decide⟩

/-- C1: for every message, every signing key (hence every algorithm among
RSA-SHA1, RSA-SHA256 and Ed25519-SHA256) and every signer configuration
without a body-length limit, signing the message and then verifying it with
the matching public key under the same header and body canonicalization
modes yields Pass. -/
theorem dkim_sign_verify_roundtrip (signer : DkimSigner) (msg : Message) (now : Nat)
    (hl : signer.template.l = 0) :
    dkimVerify msg (dkimSign signer msg now) signer.key.publicKey now = DkimResult.Pass := by
  have hx : (dkimSign signer msg now).x
      = (if signer.template.x = 0 then 0 else now + signer.template.x) := rfl
  have ht : (dkimSign signer msg now).t = now := rfl
  have h1 : ¬((dkimSign signer msg now).x ≠ 0
      ∧ ((dkimSign signer msg now).x < (dkimSign signer msg now).t
        ∨ (dkimSign signer msg now).x < now)) := by
    rw [hx, ht]
    by_cases hxz : signer.template.x = 0
    · rw [if_pos hxz]
      simp
    · rw [if_neg hxz]
      rintro ⟨h2, h3 | h3⟩ <;> omega
  have h2 : ¬(signer.key.publicKey.alg.family ≠ (dkimSign signer msg now).a.family) :=
    fun h => h rfl
  have h3 : ¬((dkimSign signer msg now).l ≠ 0
      ∧ (canonicalize_body (dkimSign signer msg now).cb msg.body).length
        < (dkimSign signer msg now).l) :=
    fun h => h.1 hl
  have h4 : ¬(bodyHashOf (dkimSign signer msg now).a (dkimSign signer msg now).cb
      (dkimSign signer msg now).l msg.body ≠ (dkimSign signer msg now).bh) :=
    fun h => h rfl
  have h5 : verifyBytes signer.key.publicKey (signedData msg (dkimSign signer msg now))
      (dkimSign signer msg now).b = true := by
    unfold verifyBytes
    rw [decide_eq_true_eq]
    rfl
  unfold dkimVerify
  rw [if_neg h1, if_neg h2, if_neg h3, if_neg h4, if_pos h5]

/-- Witness for the round-trip theorem: a concrete signer, message and
timestamp. -/
theorem dkim_sign_verify_roundtrip_witness :
    witnessSigner.template.l = 0
    ∧ dkimVerify witnessMsg (dkimSign witnessSigner witnessMsg 1700000000)
        witnessSigner.key.publicKey 1700000000 = DkimResult.Pass :=
  ⟨rfl, dkim_sign_verify_roundtrip witnessSigner witnessMsg 1700000000 rfl⟩

/-- C4: a parsed signature whose expiration `x` is present (nonzero) and
lies before its creation timestamp `t` or before the verification time is
classified Fail(SignatureExpired), never PermError. -/
theorem expired_signature_fails (msg : Message) (sig : Signature) (pk : PublicKey) (now : Nat)
    (hx : sig.x ≠ 0) (hexp : sig.x < sig.t ∨ sig.x < now) :
    dkimVerify msg sig pk now = DkimResult.Fail Error.SignatureExpired
    ∧ ∀ e : Error, dkimVerify msg sig pk now ≠ DkimResult.PermError e := by
  have h1 : dkimVerify msg sig pk now = DkimResult.Fail Error.SignatureExpired := by
    unfold dkimVerify
    rw [if_pos ⟨hx, hexp⟩]
  refine ⟨h1, fun e h2 => ?_⟩
  rw [h1] at h2
  exact DkimResult.noConfusion h2

/-- Witness for the expiration theorem: a concrete signature with `x` = 5
before `t` = 10, verified at time 100. -/
theorem expired_signature_fails_witness :
    witnessExpiredSig.x ≠ 0
    ∧ (witnessExpiredSig.x < witnessExpiredSig.t ∨ witnessExpiredSig.x < 100)
    ∧ (dkimVerify witnessMsg witnessExpiredSig witnessKey.publicKey 100
          = DkimResult.Fail Error.SignatureExpired
      ∧ ∀ e : Error, dkimVerify witnessMsg witnessExpiredSig witnessKey.publicKey 100
          ≠ DkimResult.PermError e) :=
  ⟨by decide, by decide,
    expired_signature_fails witnessMsg witnessExpiredSig witnessKey.publicKey 100
      (by decide) (by decide)⟩

theorem builderRun_done : ∀ opts : List BuilderAction,
    (∃ s, builderRun BuilderState.done opts = some s ∧ canSign s = true)
    ↔ opts.all (· == BuilderAction.setOption) = true := by
  intro opts
  induction opts with
  | nil =>
    constructor
    · intro _
      rfl
    · intro _
      exact ⟨BuilderState.done, rfl, rfl⟩
  | cons a opts ih =>
    cases a with
    | setOption =>
      have h1 : builderRun BuilderState.done (BuilderAction.setOption :: opts)
          = builderRun BuilderState.done opts := rfl
      have hself : (BuilderAction.setOption == BuilderAction.setOption) = true := by decide
      have h2 : (BuilderAction.setOption :: opts).all (· == BuilderAction.setOption)
          = opts.all (· == BuilderAction.setOption) := by
        rw [List.all_cons, hself, Bool.true_and]
      rw [h1, h2]
      exact ih
    | setDomain =>
      have hne : (BuilderAction.setDomain == BuilderAction.setOption) = false := by decide
      simp [builderRun, builderStep, List.all_cons, hne]
    | setSelector =>
      have hne : (BuilderAction.setSelector == BuilderAction.setOption) = false := by decide
      simp [builderRun, builderStep, List.all_cons, hne]
    | setHeaders =>
      have hne : (BuilderAction.setHeaders == BuilderAction.setOption) = false := by decide
      simp [builderRun, builderStep, List.all_cons, hne]

/-- C7: starting from NeedDomain, the builder reaches a state exposing the
sign operation exactly by setting domain, selector and signed-header list, in
that strict order, followed only by optional Done-state settings — so no
signature can be produced without domain, selector and header list all
configured. -/
theorem builder_typestate_order : ∀ acts : List BuilderAction,
    (∃ s, builderRun BuilderState.needDomain acts = some s ∧ canSign s = true)
    ↔ ∃ opts, acts = BuilderAction.setDomain :: BuilderAction.setSelector
        :: BuilderAction.setHeaders :: opts
        ∧ opts.all (· == BuilderAction.setOption) = true := by
  intro acts
  cases acts with
  | nil => simp [builderRun, canSign]
  | cons a rest =>
    cases a with
    | setSelector => simp [builderRun, builderStep]
    | setHeaders => simp [builderRun, builderStep]
    | setOption => simp [builderRun, builderStep]
    | setDomain =>
      cases rest with
      | nil => simp [builderRun, builderStep, canSign]
      | cons b rest2 =>
        cases b with
        | setDomain => simp [builderRun, builderStep]
        | setHeaders => simp [builderRun, builderStep]
        | setOption => simp [builderRun, builderStep]
        | setSelector =>
          cases rest2 with
          | nil => simp [builderRun, builderStep, canSign]
          | cons c rest3 =>
            cases c with
            | setDomain => simp [builderRun, builderStep]
            | setSelector => simp [builderRun, builderStep]
            | setOption => simp [builderRun, builderStep]
            | setHeaders =>
              have h1 : builderRun BuilderState.needDomain
                  (BuilderAction.setDomain :: BuilderAction.setSelector
                    :: BuilderAction.setHeaders :: rest3)
                  = builderRun BuilderState.done rest3 := rfl
              rw [h1]
              constructor
              · intro h
                exact ⟨rest3, rfl, (builderRun_done rest3).mp h⟩
              · rintro ⟨opts, heq, hall⟩
                have h2 : rest3 = opts := by
                  simpa using heq
                rw [h2]
                exact (builderRun_done opts).mpr hall

end MailAuth
